import Mathlib

/-!
Verification of the QUEST+ adaptive Bayesian engine (`questplus/qp.py`).

The engine is shallowly embedded over exact rationals: every probability
tensor of the Python code (built on `numpy` / `xarray`) becomes a function
from multi-indices to `ℚ`, every fallible operation becomes a function into
`Except`, and the `numpy` floating-point conventions relevant to the code
(NaN skipping in `xarray` sums, division by a zero normalizer) are translated
explicitly where they matter and documented at the definition they affect.
The natural logarithm used by the entropy computation is kept as an abstract
function parameter `lg : ℚ → ℚ`: none of the verified properties depend on
the values of the logarithm, only on the bookkeeping around it.

Axis values are modelled as rationals; tensors are indexed by one index per
axis (a `List Nat`), enumerated in row-major (C) order exactly as
`np.unravel_index` does on the flattened arrays of the source.
-/

namespace QuestPlusModel

/-- Error taxonomy of the embedded engine.
`configError` stands for the construction-time failures of the source
(the `ValueError` for an unknown psychometric-function name, the
`IndexError` raised by `outcome_values[0]` / `outcome_values[1]` on a too
short outcome axis, and the `ValueError` raised by `xr.DataArray` when the
prior data does not match the parameter dims).  `lookupError` stands for the
`KeyError` raised by `DataArray.sel` in `update`.  `valueError` stands for
the `ValueError` raised inside `next_stim` (unknown `stim_selection`, or
`argmin` of an empty array) and `param_estimate`. -/
inductive QPError
  | configError
  | lookupError
  | valueError
deriving DecidableEq

/-- A caller-supplied axis specification: a scalar or a sequence of values
(the values of one entry of `stim_domain` / `param_domain` /
`outcome_domain`). -/
inductive AxisInput
  | scalar (x : ℚ)
  | seq (xs : List ℚ)

/-- Embedding of `QuestPlus._ensure_ndarray`: `np.atleast_1d` coerces a scalar axis value
to a one-element sequence and leaves sequences unchanged. -/
def ensureNdarray : AxisInput → List ℚ
  | .scalar x => [x]
  | .seq xs => xs

/-- Row-major (C-order) enumeration of the multi-indices of a grid with the
given axis lengths: the order in which `numpy` flattens an array, hence the
order scanned by `argmin` / `argmax` via `np.unravel_index`. -/
def gridIndices : List Nat → List (List Nat)
  | [] => [[]]
  | n :: ns => (List.range n).flatMap fun i => (gridIndices ns).map fun t => i :: t

/-- The outer-product weight of a parameter-grid cell for a per-dimension
prior specification `ws`: the product over the axes of the weight chosen by
the cell's index on that axis. -/
def outerWeight (ws : List (List ℚ)) (ix : List Nat) : ℚ :=
  ((ws.zip ix).map fun p => p.1.getD p.2 0).prod

/-- The normalizer used by `_gen_prior` (`prior.sum()` before the division):
the number of grid cells in the uniform branch (`np.ones(...)`), and the
total outer-product mass in the explicit-prior branch. -/
def priorNormalizer (paramAxes : List (List ℚ)) : Option (List (List ℚ)) → ℚ
  | none => ((paramAxes.map List.length).prod : ℕ)
  | some ws => ((gridIndices (ws.map List.length)).map (outerWeight ws)).sum

/-- Embedding of `QuestPlus._gen_prior`.  Without a `prior` argument the data is
`np.ones(shape)` normalized, i.e. `1 / (number of cells)` per cell.  With an
explicit prior the source computes
`np.prod(np.meshgrid(*prior.values(), sparse=True, indexing='ij'))`:
when the arrays returned by the sparse meshgrid form a rectangular stack —
a single parameter axis, or every axis of length one — `np.asarray` makes
them a proper ndarray and `np.prod` collapses it to the scalar product of
all weights, after which `xr.DataArray` rejects the 0-d data against the
parameter dims (`configError` here); otherwise (the numpy of this project's
era) the ragged list becomes an object array whose product is the broadcast
outer product of the per-dimension weight vectors.  A shape mismatch between
the prior data and the parameter axes is likewise rejected by
`xr.DataArray` (`configError`). -/
def genPrior (paramAxes : List (List ℚ)) (priorSpec : Option (List (List ℚ))) :
    Except QPError (List Nat → ℚ) :=
  match priorSpec with
  | none =>
      .ok fun _ => 1 / (((paramAxes.map List.length).prod : ℕ) : ℚ)
  | some ws =>
      if ws.length = 1 ∨ (ws ≠ [] ∧ ws.all fun w => w.length = 1) then
        .error .configError
      else if ws.map List.length ≠ paramAxes.map List.length then
        .error .configError
      else
        .ok fun ix => outerWeight ws ix /
          ((gridIndices (ws.map List.length)).map (outerWeight ws)).sum

/-- Embedding of `QuestPlus._gen_likelihoods`.  The recognized psychometric-function
names are dispatched to the external provider (`psychometric_function.*`),
whose output over the stimulus × parameter grid is the caller-supplied
`pGrid` (probability of the first outcome label per cell); an unknown name
raises (`configError`).  The outcome axis of the resulting tensor holds
exactly the first two outcome labels (`outcome_values[0]` with data `p` and
`outcome_values[1]` with data `1 - p`); fewer than two labels raises an
`IndexError` (`configError`). -/
def genLikelihoods (func : String) (outcomeVals : List ℚ)
    (pGrid : List Nat → List Nat → ℚ) :
    Except QPError ((List Nat → List Nat → Nat → ℚ) × List ℚ) :=
  if func = "weibull" ∨ func = "csf" ∨ func = "norm_cdf" ∨ func = "norm_cdf_2" then
    match outcomeVals with
    | o0 :: o1 :: _ =>
        .ok (fun s v o => if o = 0 then pGrid s v else if o = 1 then 1 - pGrid s v else 0,
             [o0, o1])
    | _ => .error .configError
  else .error .configError

/-- The engine state: the fields of the `QuestPlus` instance.
`stimAxes` / `paramAxes` list the (coerced) axis value sequences in
insertion order; `outcomeCoords` is the outcome coordinate of the cached
likelihood tensor (the first two outcome labels); `likelihoods` maps a
stimulus cell, a parameter cell and an outcome index to the likelihood;
`prior` and `posterior` map a parameter cell to its mass; `stimHistory` has
one (append-only) list per stimulus axis and `respHistory` is the
append-only outcome log; `entropy` is `np.nan` (`none`) until the first
`next_stim` records a minimized expected entropy. -/
structure QuestPlus where
  stimAxes : List (List ℚ)
  paramAxes : List (List ℚ)
  outcomeCoords : List ℚ
  likelihoods : List Nat → List Nat → Nat → ℚ
  prior : List Nat → ℚ
  posterior : List Nat → ℚ
  stimSelection : String
  paramEstimationMethod : String
  stimHistory : List (List ℚ)
  respHistory : List ℚ
  entropy : Option ℚ

/-- Construction configuration of `QuestPlus.__init__`.  `pGrid` is the
output of the external psychometric-function provider over the full
stimulus × parameter grid (probability of the first outcome label).
`stim_selection_options` is only read by the disabled `min_n_entropy`
branch of the source, so it is not part of the model. -/
structure ConfigInput where
  stimDomain : List AxisInput
  paramDomain : List AxisInput
  outcomeDomain : AxisInput
  priorSpec : Option (List (List ℚ))
  func : String
  pGrid : List Nat → List Nat → ℚ
  stimSelectionMethod : String
  paramEstimationMethod : String

/-- Embedding of `QuestPlus.__init__`: coerce the domains, build the prior, copy it into
the posterior, build and cache the likelihood tensor, and initialize the
empty histories and the `np.nan` entropy. -/
def mkQuestPlus (cfg : ConfigInput) : Except QPError QuestPlus :=
  match genPrior (cfg.paramDomain.map ensureNdarray) cfg.priorSpec with
  | .error e => .error e
  | .ok prior =>
  match genLikelihoods cfg.func (ensureNdarray cfg.outcomeDomain) cfg.pGrid with
  | .error e => .error e
  | .ok lk =>
  .ok { stimAxes := cfg.stimDomain.map ensureNdarray
        paramAxes := cfg.paramDomain.map ensureNdarray
        outcomeCoords := lk.2
        likelihoods := lk.1
        prior := prior
        posterior := prior
        stimSelection := cfg.stimSelectionMethod
        paramEstimationMethod := cfg.paramEstimationMethod
        stimHistory := (cfg.stimDomain.map ensureNdarray).map fun _ => []
        respHistory := []
        entropy := none }

/-- The parameter-grid cells of an engine, in canonical row-major order. -/
def paramCells (qp : QuestPlus) : List (List Nat) :=
  gridIndices (qp.paramAxes.map List.length)

/-- The stimulus-grid cells of an engine, in canonical row-major order —
the order in which `np.unravel_index(EH.argmin(), EH.shape)` scans the
expected-entropy array. -/
def stimCells (qp : QuestPlus) : List (List Nat) :=
  gridIndices (qp.stimAxes.map List.length)

/-- Per-axis label lookup: each pair carries one axis's values and the
selected label; the result is the index list, or `none` as soon as one
label is absent from its axis (`DataArray.sel` raising a `KeyError`). -/
def seqLookups : List (List ℚ × ℚ) → Option (List Nat)
  | [] => some []
  | p :: ps =>
      match p.1.findIdx? (fun x => x == p.2), seqLookups ps with
      | some i, some rest => some (i :: rest)
      | _, _ => none

/-- Label-based selection of a full stimulus (`DataArray.sel` over every
stimulus axis): the index of the first occurrence of each value, `none`
(a `KeyError`) if any value is absent. -/
def lookupStim (axes : List (List ℚ)) (vals : List ℚ) : Option (List Nat) :=
  if axes.length = vals.length then seqLookups (axes.zip vals) else none

/-- The normalizer of an `update` step: `(self.posterior * likelihood).sum()`
for the selected likelihood slice. -/
def updateMass (qp : QuestPlus) (sIdx : List Nat) (oIdx : Nat) : ℚ :=
  ((paramCells qp).map fun v => qp.posterior v * qp.likelihoods sIdx v oIdx).sum

/-- The `update` normalizer reached by a given raw `(stim, outcome)` input,
or `0` when the lookups fail. -/
def massOf (qp : QuestPlus) (stim : List ℚ) (outcome : ℚ) : ℚ :=
  match lookupStim qp.stimAxes stim, qp.outcomeCoords.findIdx? fun x => x == outcome with
  | some sIdx, some oIdx => updateMass qp sIdx oIdx
  | _, _ => 0

/-- Embedding of `QuestPlus.update`: select the likelihood slice at the given stimulus
values and outcome label (`sel` raises a `KeyError` — `lookupError` — if any
value is absent from its axis, before any state is touched), multiply it
into the posterior, renormalize by the summed mass, and append the inputs to
the per-axis stimulus history and the response history.  The division is the
source's floating-point division: when the mass is `0` every renormalized
entry is the float `NaN`, whose exact-arithmetic shadow here is the junk
value `0` (division by zero in `ℚ`). -/
def update (qp : QuestPlus) (stim : List ℚ) (outcome : ℚ) : Except QPError QuestPlus :=
  match lookupStim qp.stimAxes stim, qp.outcomeCoords.findIdx? fun x => x == outcome with
  | some sIdx, some oIdx =>
      .ok { qp with
            posterior := fun v =>
              qp.posterior v * qp.likelihoods sIdx v oIdx / updateMass qp sIdx oIdx
            stimHistory := qp.stimHistory.zipWith (fun h x => h ++ [x]) stim
            respHistory := qp.respHistory ++ [outcome] }
  | _, _ => .error .lookupError

/-- The outcome-marginal probability `pk` of `next_stim`:
`(self.posterior * self.likelihoods).sum(dim=param_domain)` at one
(stimulus, outcome) coordinate. -/
def pkOf (qp : QuestPlus) (s : List Nat) (o : Nat) : ℚ :=
  ((paramCells qp).map fun v => qp.posterior v * qp.likelihoods s v o).sum

/-- One parameter cell's contribution to `new_posterior * np.log(new_posterior)`
under the skip-NaN summation of `xarray`: with `q = x / pk` the float code
produces `NaN` — which the sum skips, i.e. contributes `0` — whenever
`pk == 0` (the division), `q == 0` (`0 * log(0) = 0 * -inf`) or `q < 0`
(`log` of a negative); otherwise it contributes `q * log q`.  In `ℚ`, where
`x / 0 = 0`, all three skipped cases are exactly `q ≤ 0`. -/
def entTerm (lg : ℚ → ℚ) (x pk : ℚ) : ℚ :=
  let q := x / pk
  if q ≤ 0 then 0 else q * lg q

/-- The per-(stimulus, outcome) entropy `H` of `next_stim`:
`-((new_posterior * np.log(new_posterior)).sum(dim=param_domain))` with the
skip-NaN convention of `entTerm`. -/
def entH (lg : ℚ → ℚ) (qp : QuestPlus) (s : List Nat) (o : Nat) : ℚ :=
  -(((paramCells qp).map fun v =>
      entTerm lg (qp.posterior v * qp.likelihoods s v o) (pkOf qp s o)).sum)

/-- The expected posterior entropy `EH = (pk * H).sum(dim=outcome_domain)`
of one candidate stimulus; the outcome axis of the cached likelihood tensor
has exactly two coordinates. -/
def expectedEntropy (lg : ℚ → ℚ) (qp : QuestPlus) (s : List Nat) : ℚ :=
  ((List.range 2).map fun o => pkOf qp s o * entH lg qp s o).sum

/-- First-occurrence minimizer, the semantics of
`np.unravel_index(EH.argmin(), EH.shape)` on the row-major cell list:
`none` on an empty grid (`argmin` of an empty array raises). -/
def argminFirst (f : α → ℚ) : List α → Option α
  | [] => none
  | x :: xs =>
      match argminFirst f xs with
      | none => some x
      | some m => some (if f m < f x then m else x)

/-- First-occurrence maximizer, the semantics of
`np.unravel_index(posterior.argmax(), posterior.shape)`. -/
def argmaxFirst (f : α → ℚ) : List α → Option α
  | [] => none
  | x :: xs =>
      match argmaxFirst f xs with
      | none => some x
      | some m => some (if f x < f m then m else x)

/-- The stimulus values at a stimulus cell (the dictionary
`{stim_property: stim_val.item()}` read off the coordinates). -/
def stimValues (qp : QuestPlus) (c : List Nat) : List ℚ :=
  qp.stimAxes.zipWith (fun ax i => ax.getD i 0) c

/-- The parameter values at a parameter cell. -/
def paramValues (qp : QuestPlus) (c : List Nat) : List ℚ :=
  qp.paramAxes.zipWith (fun ax i => ax.getD i 0) c

/-- Embedding of `QuestPlus.next_stim`: compute the expected entropies, and for the
`min_entropy` method return the coordinates of the first-in-grid-order
minimizer while recording `EH.min()` in the entropy field.  Every other
method name — including `min_n_entropy`, whose implementation is commented
out in the source — falls through to `ValueError('Unknown stim_selection
supplied.')`.  An empty stimulus grid makes `EH.argmin()` raise a
`ValueError` as well. -/
def nextStim (lg : ℚ → ℚ) (qp : QuestPlus) : Except QPError (List ℚ × QuestPlus) :=
  if qp.stimSelection = "min_entropy" then
    match argminFirst (expectedEntropy lg qp) (stimCells qp) with
    | some c =>
        .ok (stimValues qp c,
             { qp with entropy := ((stimCells qp).map (expectedEntropy lg qp)).min? })
    | none => .error .valueError
  else .error .valueError

/-- Embedding of `QuestPlus.param_estimate`: per parameter axis, the `mean` method
returns the marginal-posterior-weighted average of the axis values — written
here as the equivalent single sum over all grid cells — and the `mode`
method returns the axis coordinate of the first-in-grid-order maximizer of
the posterior.  An unknown method raises inside the per-axis loop, hence
only when at least one parameter axis exists. -/
def paramEstimate (qp : QuestPlus) : Except QPError (List ℚ) :=
  if qp.paramAxes = [] then .ok []
  else if qp.paramEstimationMethod = "mean" then
    .ok ((List.range qp.paramAxes.length).map fun j =>
      ((paramCells qp).map fun v =>
        qp.posterior v * ((qp.paramAxes.getD j []).getD (v.getD j 0) 0)).sum)
  else if qp.paramEstimationMethod = "mode" then
    match argmaxFirst qp.posterior (paramCells qp) with
    | some c => .ok (paramValues qp c)
    | none => .error .valueError
  else .error .valueError

/-- Total posterior mass. -/
def postSum (qp : QuestPlus) : ℚ := ((paramCells qp).map qp.posterior).sum

/-- Total prior mass. -/
def priorSum (qp : QuestPlus) : ℚ := ((paramCells qp).map qp.prior).sum

/-- A sequence of `update` calls that all succeed and all have a nonzero
renormalization mass (a "valid run"): the regime in which the float code
divides by a nonzero number at every step. -/
inductive ValidRun : QuestPlus → List (List ℚ × ℚ) → QuestPlus → Prop
  | nil (qp : QuestPlus) : ValidRun qp [] qp
  | cons {qp qp₁ qp₂ : QuestPlus} {s : List ℚ} {o : ℚ} {rest : List (List ℚ × ℚ)}
      (hu : update qp s o = .ok qp₁) (hm : massOf qp s o ≠ 0)
      (hrest : ValidRun qp₁ rest qp₂) : ValidRun qp ((s, o) :: rest) qp₂

/-! ### Concrete engines used by the witnesses and counterexamples

`sampleQP` is the binary scenario of the spec: one stimulus axis
`intensity = [0, 1]`, one parameter axis `threshold = [0, 1]`, outcome
labels encoded `0` ("correct") and `1` ("incorrect"), uniform prior, and a
provider with `P(correct) = 1` when `intensity == threshold` else `0`. -/

/-- The deterministic provider of the spec's binary scenario. -/
def samplePGrid : List Nat → List Nat → ℚ :=
  fun s v => if s = v then 1 else 0

/-- The binary-scenario engine state, as produced by construction. -/
def sampleQP : QuestPlus where
  stimAxes := [[0, 1]]
  paramAxes := [[0, 1]]
  outcomeCoords := [0, 1]
  likelihoods := fun s v o =>
    if o = 0 then samplePGrid s v else if o = 1 then 1 - samplePGrid s v else 0
  prior := fun _ => 1 / 2
  posterior := fun _ => 1 / 2
  stimSelection := "min_entropy"
  paramEstimationMethod := "mean"
  stimHistory := [[]]
  respHistory := []
  entropy := none

/-- The binary-scenario engine after `update(stim = [0], outcome = 0)`. -/
def sampleQPUpdated : QuestPlus :=
  match update sampleQP [0] 0 with
  | .ok qp => qp
  | .error _ => sampleQP

/-- A configuration whose provider returns probability `0` everywhere, so
that observing the first outcome label has marginal probability zero: the
`update` normalizer is `0`. -/
def cfgZero : ConfigInput where
  stimDomain := [.seq [0]]
  paramDomain := [.seq [0, 1]]
  outcomeDomain := .seq [0, 1]
  priorSpec := none
  func := "weibull"
  pGrid := fun _ _ => 0
  stimSelectionMethod := "min_entropy"
  paramEstimationMethod := "mean"

/-- A configuration with an empty parameter axis (and `mean` estimation). -/
def cfgEmptyParam : ConfigInput where
  stimDomain := [.seq [0]]
  paramDomain := [.seq []]
  outcomeDomain := .seq [0, 1]
  priorSpec := none
  func := "weibull"
  pGrid := fun _ _ => 0
  stimSelectionMethod := "min_entropy"
  paramEstimationMethod := "mean"

/-- The binary-scenario engine configured with the `min_n_entropy`
stimulus-selection method. -/
def minNQP : QuestPlus :=
  { sampleQP with stimSelection := "min_n_entropy" }

/-- The engine constructed from `cfgZero` (construction succeeds). -/
def qpZero : QuestPlus :=
  match mkQuestPlus cfgZero with
  | .ok qp => qp
  | .error _ => sampleQP

/-- A configuration with an empty outcome axis. -/
def cfgEmptyOutcome : ConfigInput where
  stimDomain := [.seq [0]]
  paramDomain := [.seq [0, 1]]
  outcomeDomain := .seq []
  priorSpec := none
  func := "weibull"
  pGrid := fun _ _ => 0
  stimSelectionMethod := "min_entropy"
  paramEstimationMethod := "mean"

/-- An engine state with an empty stimulus axis. -/
def emptyStimQP : QuestPlus :=
  { sampleQP with stimAxes := [[]], stimHistory := [[]] }

/-- Decidable equality of `Except` values, for evaluating concrete runs of
the embedded engine. -/
instance instDecEqExcept {ε α : Type} [DecidableEq ε] [DecidableEq α] :
    DecidableEq (Except ε α) := fun a b =>
  match a, b with
  | .ok x, .ok y =>
      if h : x = y then .isTrue (by rw [h])
      else .isFalse (by intro hc; cases hc; exact h rfl)
  | .error x, .error y =>
      if h : x = y then .isTrue (by rw [h])
      else .isFalse (by intro hc; cases hc; exact h rfl)
  | .ok _, .error _ => .isFalse (by intro hc; cases hc)
  | .error _, .ok _ => .isFalse (by intro hc; cases hc)

/-! ### General lemmas about sums, grids, lookups and arg-extrema -/

/-- Dividing every summand by a constant divides the sum. -/
theorem sum_map_div {α : Type} (l : List α) (f : α → ℚ) (c : ℚ) :
    (l.map fun v => f v / c).sum = (l.map f).sum / c := by
  induction l with
  | nil => simp
  | cons x xs ih => simp [ih, add_div]

/-- A constant-valued sum is the length times the constant. -/
theorem sum_map_const {α : Type} (l : List α) (c : ℚ) :
    (l.map fun _ => c).sum = l.length * c := by
  induction l with
  | nil => simp
  | cons x xs ih =>
      simp only [List.map_cons, List.sum_cons, ih, List.length_cons]
      push_cast
      ring

/-- The row-major enumeration has one entry per grid cell. -/
theorem gridIndices_length (ls : List Nat) : (gridIndices ls).length = ls.prod := by
  induction ls with
  | nil => simp [gridIndices]
  | cons n ns ih =>
      simp [gridIndices, List.length_flatMap, Function.comp_def, ih,
        List.map_const', List.sum_replicate, smul_eq_mul]

/-- A grid with an empty axis has no cells. -/
theorem gridIndices_eq_nil {ls : List Nat} (h : 0 ∈ ls) : gridIndices ls = [] := by
  induction ls with
  | nil => cases h
  | cons n ns ih =>
      rcases List.mem_cons.mp h with h0 | hmem
      · subst h0; simp [gridIndices]
      · simp [gridIndices, ih hmem]

/-- If some pair's label is absent from its axis, the sequential lookup
fails. -/
theorem seqLookups_eq_none {l : List (List ℚ × ℚ)} {p : List ℚ × ℚ}
    (hp : p ∈ l) (hf : (p.1.findIdx? fun x => x == p.2) = none) :
    seqLookups l = none := by
  induction l with
  | nil => cases hp
  | cons q qs ih =>
      rcases List.mem_cons.mp hp with h0 | hmem
      · subst h0; simp [seqLookups, hf]
      · cases hfq : q.1.findIdx? fun x => x == q.2 <;>
          simp [seqLookups, hfq, ih hmem]

/-- A `findIdx?` search with an equality test fails exactly on absent values. -/
theorem findIdx?_beq_none {l : List ℚ} {v : ℚ} (h : v ∉ l) :
    (l.findIdx? fun x => x == v) = none := by
  induction l with
  | nil => rfl
  | cons x xs ih =>
      have hx : ¬x = v := fun hxv => h (hxv ▸ List.mem_cons_self x xs)
      have hxs : v ∉ xs := fun hm => h (List.mem_cons_of_mem _ hm)
      simp [List.findIdx?_cons, beq_eq_false_iff_ne.mpr hx, ih hxs]

/-- Specification of `argminFirst` on a nonempty list: it returns an
element that is a global minimizer of `f` and is preceded only by strictly
larger values — the first occurrence of the minimum. -/
theorem argminFirst_spec {α : Type} (f : α → ℚ) (l : List α) (h : l ≠ []) :
    ∃ c l₁ l₂, argminFirst f l = some c ∧ l = l₁ ++ c :: l₂ ∧
      (∀ x ∈ l, f c ≤ f x) ∧ (∀ x ∈ l₁, f c < f x) := by
  induction l with
  | nil => exact absurd rfl h
  | cons x xs ih =>
      by_cases hxs : xs = []
      · subst hxs
        refine ⟨x, [], [], by simp [argminFirst], rfl, ?_, by simp⟩
        intro y hy
        have hyx : y = x := by simpa using hy
        exact le_of_eq (congrArg f hyx.symm)
      · obtain ⟨c, l₁, l₂, hmin, hsplit, hle, hlt⟩ := ih hxs
        by_cases hcx : f c < f x
        · refine ⟨c, x :: l₁, l₂, ?_, by simp [hsplit], ?_, ?_⟩
          · simp [argminFirst, hmin, if_pos hcx]
          · intro y hy
            rcases List.mem_cons.mp hy with h0 | hmem
            · exact h0 ▸ le_of_lt hcx
            · exact hle y hmem
          · intro y hy
            rcases List.mem_cons.mp hy with h0 | hmem
            · exact h0 ▸ hcx
            · exact hlt y hmem
        · refine ⟨x, [], xs, ?_, rfl, ?_, by simp⟩
          · simp [argminFirst, hmin, if_neg hcx]
          · intro y hy
            rcases List.mem_cons.mp hy with h0 | hmem
            · exact le_of_eq (congrArg f h0.symm)
            · exact le_trans (not_lt.mp hcx) (hle y hmem)

/-- Applying `List.min?` to the mapped list returns the value of any global
minimizer. -/
theorem min?_map_of_minimizer {α : Type} (f : α → ℚ) (l : List α) (c : α)
    (hc : c ∈ l) (hmin : ∀ x ∈ l, f c ≤ f x) : (l.map f).min? = some (f c) := by
  haveI anti : Std.Antisymm ((· : ℚ) ≤ ·) := ⟨fun h h' => le_antisymm h h'⟩
  rw [List.min?_eq_some_iff (fun a => le_refl a) (fun a b => min_choice a b)
        (fun _ _ _ => le_min_iff)]
  constructor
  · exact List.mem_map_of_mem f hc
  · intro b hb
    obtain ⟨y, hy, rfl⟩ := List.mem_map.mp hb
    exact hmin y hy

/-- Inversion of a successful `update`: the lookups succeeded and the new
posterior is the pointwise renormalized product. -/
theorem update_ok_inv {qp qp' : QuestPlus} {stim : List ℚ} {oc : ℚ}
    (hu : update qp stim oc = .ok qp') :
    ∃ sIdx oIdx, lookupStim qp.stimAxes stim = some sIdx ∧
      (qp.outcomeCoords.findIdx? fun x => x == oc) = some oIdx ∧
      ∀ v, qp'.posterior v =
        qp.posterior v * qp.likelihoods sIdx v oIdx / updateMass qp sIdx oIdx := by
  unfold update at hu
  split at hu
  case h_1 sIdx oIdx hs ho =>
    cases hu
    exact ⟨sIdx, oIdx, hs, ho, fun v => rfl⟩
  case h_2 => exact Except.noConfusion hu

/-- A parameter cell whose posterior mass is `0` keeps mass `0` through any
valid run of updates: each step multiplies it by a likelihood and divides,
so it stays `0`. -/
theorem validRun_preserves_zero {v : List Nat} :
    ∀ {qp trials qpF}, ValidRun qp trials qpF →
      qp.posterior v = 0 → qpF.posterior v = 0 := by
  intro qp trials qpF h
  induction h with
  | nil => exact id
  | cons hu hm hrest ih =>
      intro h0
      apply ih
      obtain ⟨sIdx, oIdx, _, _, hpost⟩ := update_ok_inv hu
      rw [hpost v, h0, zero_mul, zero_div]

/-! ### The claims -/

/-- C2: for every current posterior and every `update(stim, outcome)` call
whose stimulus and outcome values are all present in the configured axes,
the posterior afterwards equals `(P * L) / sum(P * L)` where `L` is the
likelihood-tensor slice at the selected (stimulus, outcome) coordinates — a
tensor over the parameter axes only — and exactly one new (stimulus,
outcome) entry whose content matches the inputs is appended to the trial
history (one value per stimulus axis, one outcome record); nothing else of
the engine state changes, and `update` produces no other value. -/
theorem update_bayes_rule (qp : QuestPlus) (stim : List ℚ) (outcome : ℚ)
    (sIdx : List Nat) (oIdx : Nat)
    (hs : lookupStim qp.stimAxes stim = some sIdx)
    (ho : (qp.outcomeCoords.findIdx? fun x => x == outcome) = some oIdx) :
    ∃ qp', update qp stim outcome = .ok qp' ∧
      (∀ v, qp'.posterior v =
        qp.posterior v * qp.likelihoods sIdx v oIdx / updateMass qp sIdx oIdx) ∧
      qp'.respHistory = qp.respHistory ++ [outcome] ∧
      qp'.stimHistory = qp.stimHistory.zipWith (fun h x => h ++ [x]) stim ∧
      qp'.prior = qp.prior ∧ qp'.likelihoods = qp.likelihoods ∧
      qp'.stimAxes = qp.stimAxes ∧ qp'.paramAxes = qp.paramAxes ∧
      qp'.outcomeCoords = qp.outcomeCoords := by
  refine ⟨{ qp with
            posterior := fun v =>
              qp.posterior v * qp.likelihoods sIdx v oIdx / updateMass qp sIdx oIdx
            stimHistory := qp.stimHistory.zipWith (fun h x => h ++ [x]) stim
            respHistory := qp.respHistory ++ [outcome] },
          ?_, fun v => rfl, rfl, rfl, rfl, rfl, rfl, rfl, rfl⟩
  simp [update, hs, ho]

unseal Rat.add Rat.mul Rat.inv Rat.sub in
/-- Witness for C2 on the binary scenario: updating with stimulus `[0]` and
outcome `0` succeeds, renormalizes pointwise, and appends one history
entry. -/
theorem update_bayes_rule_witness :
    lookupStim sampleQP.stimAxes [0] = some [0] ∧
      (sampleQP.outcomeCoords.findIdx? fun x => x == 0) = some 0 ∧
      ∃ qp', update sampleQP [0] 0 = .ok qp' ∧
        (∀ v, qp'.posterior v =
          sampleQP.posterior v * sampleQP.likelihoods [0] v 0 /
            updateMass sampleQP [0] 0) ∧
        qp'.respHistory = sampleQP.respHistory ++ [0] ∧
        qp'.stimHistory = sampleQP.stimHistory.zipWith (fun h x => h ++ [x]) [0] ∧
        qp'.prior = sampleQP.prior ∧ qp'.likelihoods = sampleQP.likelihoods ∧
        qp'.stimAxes = sampleQP.stimAxes ∧ qp'.paramAxes = sampleQP.paramAxes ∧
        qp'.outcomeCoords = sampleQP.outcomeCoords :=
  ⟨by decide, by decide,
    update_bayes_rule sampleQP [0] 0 [0] 0 (by decide) (by decide)⟩

/-- C7: `update` fails with a lookup error whenever any supplied stimulus
or outcome value is absent from the corresponding axis's grid, and on such
a failure it performs no work at all: no success state exists, so the
posterior is unchanged and no history entry is appended (in the source the
`sel` lookup raises before any assignment to `self.posterior` or the
histories). -/
theorem update_lookup_failure (qp : QuestPlus) (stim : List ℚ) (outcome : ℚ)
    (habs : (stim.length = qp.stimAxes.length ∧
              ∃ i, i < qp.stimAxes.length ∧
                stim.getD i 0 ∉ qp.stimAxes.getD i []) ∨
            outcome ∉ qp.outcomeCoords) :
    update qp stim outcome = .error .lookupError ∧
      ∀ qp', update qp stim outcome ≠ .ok qp' := by
  have herr : update qp stim outcome = .error .lookupError := by
    rcases habs with ⟨hlen, i, hi, habsent⟩ | hoc
    · have hi' : i < stim.length := hlen ▸ hi
      have hz : i < (qp.stimAxes.zip stim).length := by
        rw [List.length_zip, hlen]; exact Nat.lt_min.mpr ⟨hi, hi⟩
      have hmem : (qp.stimAxes[i], stim[i]) ∈ qp.stimAxes.zip stim := by
        have hgm := List.getElem_mem hz
        rwa [List.getElem_zip] at hgm
      have habsent' : stim[i] ∉ qp.stimAxes[i] := by
        rwa [List.getD_eq_getElem stim 0 hi', List.getD_eq_getElem qp.stimAxes [] hi]
          at habsent
      have hnone : lookupStim qp.stimAxes stim = none := by
        unfold lookupStim
        rw [if_pos hlen.symm]
        exact seqLookups_eq_none hmem (findIdx?_beq_none habsent')
      unfold update
      rw [hnone]
    · have hnone : (qp.outcomeCoords.findIdx? fun x => x == outcome) = none :=
        findIdx?_beq_none hoc
      unfold update
      rw [hnone]
      cases lookupStim qp.stimAxes stim <;> rfl
  exact ⟨herr, fun qp' hok => Except.noConfusion (herr ▸ hok)⟩

unseal Rat.add Rat.mul Rat.inv Rat.sub in
/-- Witness for C7: on the binary scenario, a stimulus value `5` absent
from the axis `[0, 1]` makes `update` fail with a lookup error and no
success state. -/
theorem update_lookup_failure_witness :
    (([(5 : ℚ)].length = sampleQP.stimAxes.length ∧
        ∃ i, i < sampleQP.stimAxes.length ∧
          [(5 : ℚ)].getD i 0 ∉ sampleQP.stimAxes.getD i []) ∨
      (0 : ℚ) ∉ sampleQP.outcomeCoords) ∧
      (update sampleQP [5] 0 = .error .lookupError ∧
        ∀ qp', update sampleQP [5] 0 ≠ .ok qp') :=
  ⟨Or.inl ⟨by decide, 0, by decide, by decide⟩,
    update_lookup_failure sampleQP [5] 0
      (Or.inl ⟨by decide, 0, by decide, by decide⟩)⟩

/-- C4: if the likelihood of the observed outcome is `0` at a parameter
cell, a valid `update` (values present, nonzero renormalization mass)
drives that cell's posterior mass to exactly `0`, and it stays exactly `0`
through every subsequent valid update. -/
theorem zero_likelihood_zero_posterior (qp : QuestPlus) (stim : List ℚ)
    (outcome : ℚ) (sIdx : List Nat) (oIdx : Nat) (v : List Nat)
    (qp₁ qp₂ : QuestPlus) (trials : List (List ℚ × ℚ))
    (hs : lookupStim qp.stimAxes stim = some sIdx)
    (ho : (qp.outcomeCoords.findIdx? fun x => x == outcome) = some oIdx)
    (hL : qp.likelihoods sIdx v oIdx = 0)
    (_hm : massOf qp stim outcome ≠ 0)
    (hu : update qp stim outcome = .ok qp₁)
    (hrun : ValidRun qp₁ trials qp₂) :
    qp₁.posterior v = 0 ∧ qp₂.posterior v = 0 := by
  obtain ⟨sIdx', oIdx', hs', ho', hpost⟩ := update_ok_inv hu
  have hsEq : sIdx' = sIdx := by rw [hs] at hs'; exact (Option.some.inj hs').symm
  have hoEq : oIdx' = oIdx := by rw [ho] at ho'; exact (Option.some.inj ho').symm
  subst hsEq hoEq
  have h1 : qp₁.posterior v = 0 := by rw [hpost v, hL, mul_zero, zero_div]
  exact ⟨h1, validRun_preserves_zero hrun h1⟩

/-- Updating the entropy field does not change the stimulus grid. -/
theorem stimCells_set_entropy (qp : QuestPlus) (e : Option ℚ) :
    stimCells { qp with entropy := e } = stimCells qp := rfl

/-- Updating the entropy field does not change the expected entropies. -/
theorem expectedEntropy_set_entropy (lg : ℚ → ℚ) (qp : QuestPlus) (e : Option ℚ) :
    expectedEntropy lg { qp with entropy := e } = expectedEntropy lg qp := rfl

/-- Updating the entropy field does not change the coordinate read-off. -/
theorem stimValues_set_entropy (qp : QuestPlus) (e : Option ℚ) :
    stimValues { qp with entropy := e } = stimValues qp := rfl

/-- Updating the entropy field does not change the selection method. -/
theorem stimSelection_set_entropy (qp : QuestPlus) (e : Option ℚ) :
    ({ qp with entropy := e } : QuestPlus).stimSelection = qp.stimSelection := rfl

/-- C1: with the `min_entropy` selection method and a nonempty stimulus
grid, `next_stim` returns the coordinates of the stimulus cell minimizing
the expected posterior entropy `EH` (where `EH(s) = Σ_o pk(s,o)·H(s,o)`,
`pk` is the parameter-axis marginal of `Posterior × LikelihoodTensor`, and
`H(s,o)` is the entropy of the renormalized joint with zero-probability
cells — including whole `pk = 0` slices — contributing exactly `0`, as
spelled out by `expectedEntropy` / `entH` / `entTerm` / `pkOf`); ties are
broken by the first occurrence in the grid's canonical row-major order
(every strictly earlier cell has strictly larger `EH`), and the minimized
`EH` value is recorded as the entropy scalar of the returned state. -/
theorem nextStim_min_entropy (lg : ℚ → ℚ) (qp : QuestPlus)
    (hsel : qp.stimSelection = "min_entropy") (hne : stimCells qp ≠ []) :
    ∃ c l₁ l₂,
      nextStim lg qp = .ok (stimValues qp c,
        { qp with entropy := some (expectedEntropy lg qp c) }) ∧
      stimCells qp = l₁ ++ c :: l₂ ∧
      (∀ c' ∈ stimCells qp, expectedEntropy lg qp c ≤ expectedEntropy lg qp c') ∧
      (∀ c' ∈ l₁, expectedEntropy lg qp c < expectedEntropy lg qp c') := by
  obtain ⟨c, l₁, l₂, hmin, hsplit, hle, hlt⟩ :=
    argminFirst_spec (expectedEntropy lg qp) (stimCells qp) hne
  have hcmem : c ∈ stimCells qp := by
    rw [hsplit]; exact List.mem_append_right _ (List.mem_cons_self _ _)
  have hminval : ((stimCells qp).map (expectedEntropy lg qp)).min? =
      some (expectedEntropy lg qp c) :=
    min?_map_of_minimizer (expectedEntropy lg qp) (stimCells qp) c hcmem hle
  refine ⟨c, l₁, l₂, ?_, hsplit, hle, hlt⟩
  unfold nextStim
  rw [hsel, if_pos rfl, hmin, hminval]

unseal Rat.add Rat.mul Rat.inv Rat.sub in
/-- Witness for C1 on the binary scenario with the zero logarithm: the
selection succeeds and returns a first-occurrence minimizer. -/
theorem nextStim_min_entropy_witness :
    sampleQP.stimSelection = "min_entropy" ∧ stimCells sampleQP ≠ [] ∧
      ∃ c l₁ l₂,
        nextStim (fun _ => 0) sampleQP = .ok (stimValues sampleQP c,
          { sampleQP with
            entropy := some (expectedEntropy (fun _ => 0) sampleQP c) }) ∧
        stimCells sampleQP = l₁ ++ c :: l₂ ∧
        (∀ c' ∈ stimCells sampleQP,
          expectedEntropy (fun _ => 0) sampleQP c ≤
            expectedEntropy (fun _ => 0) sampleQP c') ∧
        (∀ c' ∈ l₁,
          expectedEntropy (fun _ => 0) sampleQP c <
            expectedEntropy (fun _ => 0) sampleQP c') :=
  ⟨rfl, by decide, nextStim_min_entropy (fun _ => 0) sampleQP rfl (by decide)⟩

/-- C9: `next_stim` is idempotent with respect to engine state: whenever it
returns a result, the posterior and both trial histories of the returned
state are unchanged, and calling it again on that state returns the very
same stimulus and state.  (Proved for every state, hence in particular for
every reachable one; the only field `next_stim` writes is the informational
entropy scalar, which is why the successor state is already a fixed
point.) -/
theorem nextStim_idempotent (lg : ℚ → ℚ) (qp qp' : QuestPlus) (r : List ℚ)
    (h : nextStim lg qp = .ok (r, qp')) :
    qp'.posterior = qp.posterior ∧ qp'.stimHistory = qp.stimHistory ∧
      qp'.respHistory = qp.respHistory ∧ nextStim lg qp' = .ok (r, qp') := by
  unfold nextStim at h
  by_cases hsel : qp.stimSelection = "min_entropy"
  · rw [if_pos hsel] at h
    cases hmin : argminFirst (expectedEntropy lg qp) (stimCells qp) with
    | none => rw [hmin] at h; exact Except.noConfusion h
    | some c =>
        rw [hmin] at h
        injection h with h2
        injection h2 with hr hq
        subst hr
        subst hq
        refine ⟨rfl, rfl, rfl, ?_⟩
        unfold nextStim
        simp only [stimSelection_set_entropy, stimCells_set_entropy,
          expectedEntropy_set_entropy, stimValues_set_entropy]
        rw [if_pos hsel, hmin]
  · rw [if_neg hsel] at h
    exact Except.noConfusion h

unseal Rat.add Rat.mul Rat.inv Rat.sub in
/-- Witness for C9: the binary scenario's first selection succeeds, and the
theorem applies to it. -/
theorem nextStim_idempotent_witness :
    nextStim (fun _ => 0) sampleQP =
      .ok (stimValues sampleQP [0], { sampleQP with entropy := some 0 }) ∧
      ({ sampleQP with entropy := some 0 } : QuestPlus).posterior =
        sampleQP.posterior ∧
      ({ sampleQP with entropy := some 0 } : QuestPlus).stimHistory =
        sampleQP.stimHistory ∧
      ({ sampleQP with entropy := some 0 } : QuestPlus).respHistory =
        sampleQP.respHistory ∧
      nextStim (fun _ => 0) { sampleQP with entropy := some 0 } =
        .ok (stimValues sampleQP [0], { sampleQP with entropy := some 0 }) := by
  have h : nextStim (fun _ => 0) sampleQP =
      .ok (stimValues sampleQP [0], { sampleQP with entropy := some 0 }) := by
    rfl
  exact ⟨h, nextStim_idempotent (fun _ => 0) sampleQP
    { sampleQP with entropy := some 0 } (stimValues sampleQP [0]) h⟩

/-- C5 (amended): with `stim_selection_method = 'min_n_entropy'`,
`next_stim` does not sample among the `n` smallest-entropy stimuli — the
implementation of that policy is commented out in the source, so the call
falls through to `ValueError('Unknown stim_selection supplied.')` and no
stimulus is returned. -/
theorem nextStim_min_n_entropy_disabled (lg : ℚ → ℚ) (qp : QuestPlus)
    (hsel : qp.stimSelection = "min_n_entropy") :
    nextStim lg qp = .error .valueError := by
  unfold nextStim
  rw [hsel]
  rfl

/-- Witness for the amended C5: a concrete `min_n_entropy` engine makes
`next_stim` fail with the unknown-selection error. -/
theorem nextStim_min_n_entropy_disabled_witness :
    minNQP.stimSelection = "min_n_entropy" ∧
      nextStim (fun _ => 0) minNQP = .error .valueError :=
  ⟨rfl, nextStim_min_n_entropy_disabled (fun _ => 0) minNQP rfl⟩

/-- C5 counterexample: the claim promises a random draw among the `n`
smallest-entropy stimuli for the `min_n_entropy` method; instead, on this
concrete engine (binary scenario, `stim_selection_method =
'min_n_entropy'`), `next_stim` returns no stimulus at all — it fails with
the unknown-selection `ValueError`. -/
theorem nextStim_min_n_entropy_counterexample :
    minNQP.stimSelection = "min_n_entropy" ∧
      nextStim (fun _ => 0) minNQP = .error .valueError :=
  ⟨rfl, rfl⟩

unseal Rat.add Rat.mul Rat.inv Rat.sub in
/-- Witness for C4 on the binary scenario: after observing outcome `0`
(`correct`) at stimulus `[0]`, the parameter cell `[1]` — whose likelihood
for that observation is `0` — has posterior mass exactly `0` (the run of
subsequent updates is instantiated empty). -/
theorem zero_likelihood_zero_posterior_witness :
    lookupStim sampleQP.stimAxes [0] = some [0] ∧
      (sampleQP.outcomeCoords.findIdx? fun x => x == 0) = some 0 ∧
      sampleQP.likelihoods [0] [1] 0 = 0 ∧
      massOf sampleQP [0] 0 ≠ 0 ∧
      update sampleQP [0] 0 = .ok sampleQPUpdated ∧
      sampleQPUpdated.posterior [1] = 0 := by
  have hm : massOf sampleQP [0] 0 ≠ 0 := by decide
  exact ⟨by decide, by decide, by decide, hm, rfl,
    (zero_likelihood_zero_posterior sampleQP [0] 0 [0] 0 [1] sampleQPUpdated
      sampleQPUpdated [] (by decide) (by decide) (by decide) hm rfl (.nil _)).1⟩

/-- A successful update preserves the parameter axes and the prior. -/
theorem update_ok_frame {qp qp' : QuestPlus} {stim : List ℚ} {oc : ℚ}
    (hu : update qp stim oc = .ok qp') :
    qp'.paramAxes = qp.paramAxes ∧ qp'.prior = qp.prior := by
  unfold update at hu
  split at hu
  case h_1 => cases hu; exact ⟨rfl, rfl⟩
  case h_2 => exact Except.noConfusion hu

/-- The parameter-cell list only depends on the parameter axes. -/
theorem paramCells_congr {qp qp' : QuestPlus} (h : qp'.paramAxes = qp.paramAxes) :
    paramCells qp' = paramCells qp := by
  unfold paramCells; rw [h]

/-- Inversion of a successful construction: the prior generation succeeded,
and the engine starts with that prior as both prior and posterior over the
coerced parameter axes. -/
theorem mkQuestPlus_ok_inv {cfg : ConfigInput} {qp : QuestPlus}
    (h : mkQuestPlus cfg = .ok qp) :
    ∃ p, genPrior (cfg.paramDomain.map ensureNdarray) cfg.priorSpec = .ok p ∧
      qp.paramAxes = cfg.paramDomain.map ensureNdarray ∧
      qp.prior = p ∧ qp.posterior = p := by
  unfold mkQuestPlus at h
  cases hp : genPrior (cfg.paramDomain.map ensureNdarray) cfg.priorSpec with
  | error e => rw [hp] at h; exact Except.noConfusion h
  | ok p =>
      rw [hp] at h
      cases hl : genLikelihoods cfg.func (ensureNdarray cfg.outcomeDomain) cfg.pGrid with
      | error e => rw [hl] at h; exact Except.noConfusion h
      | ok lk =>
          rw [hl] at h
          cases h
          exact ⟨p, rfl, rfl, rfl, rfl⟩

/-- C3 (amended): `sum(Prior) = 1` and `sum(Posterior) = 1` hold exactly
after every successful construction whose prior normalizer is nonzero, and
`sum(Posterior) = 1` holds exactly after every update whose observed
outcome has nonzero marginal mass under the current posterior.  (As
literally stated — for every valid update — the claim fails: a lookup-valid
update with zero marginal mass destroys the invariant; see the
counterexample.) -/
theorem sums_to_one :
    (∀ cfg qp, mkQuestPlus cfg = .ok qp →
      priorNormalizer (cfg.paramDomain.map ensureNdarray) cfg.priorSpec ≠ 0 →
      priorSum qp = 1 ∧ postSum qp = 1) ∧
    (∀ qp stim oc qp', update qp stim oc = .ok qp' →
      massOf qp stim oc ≠ 0 → postSum qp' = 1) := by
  constructor
  · intro cfg qp h hn
    obtain ⟨p, hp, hparam, hprior, hpost⟩ := mkQuestPlus_ok_inv h
    have hsum :
        ((gridIndices ((cfg.paramDomain.map ensureNdarray).map List.length)).map
          p).sum = 1 := by
      cases hps : cfg.priorSpec with
      | none =>
          rw [hps] at hp hn
          simp only [genPrior] at hp
          simp only [priorNormalizer] at hn
          injection hp with hp'
          rw [← hp']
          rw [sum_map_const, gridIndices_length, mul_one_div]
          exact div_self hn
      | some ws =>
          rw [hps] at hp hn
          simp only [genPrior] at hp
          simp only [priorNormalizer] at hn
          split at hp
          · exact Except.noConfusion hp
          · split at hp
            · exact Except.noConfusion hp
            · next h1 h2 =>
                injection hp with hp'
                rw [← hp']
                have hlen : ws.map List.length =
                    (cfg.paramDomain.map ensureNdarray).map List.length :=
                  not_ne_iff.mp h2
                rw [← hlen, sum_map_div]
                exact div_self hn
    constructor
    · unfold priorSum paramCells
      rw [hprior, hparam]
      exact hsum
    · unfold postSum paramCells
      rw [hpost, hparam]
      exact hsum
  · intro qp stim oc qp' hu hm
    obtain ⟨sIdx, oIdx, hs, ho, hpost⟩ := update_ok_inv hu
    obtain ⟨hparam, _⟩ := update_ok_frame hu
    have hmass : massOf qp stim oc = updateMass qp sIdx oIdx := by
      unfold massOf; rw [hs, ho]
    rw [hmass] at hm
    unfold postSum
    rw [paramCells_congr hparam]
    have hmap : (paramCells qp).map qp'.posterior =
        (paramCells qp).map fun v =>
          qp.posterior v * qp.likelihoods sIdx v oIdx / updateMass qp sIdx oIdx :=
      List.map_congr_left fun v _ => hpost v
    rw [hmap, sum_map_div]
    exact div_self hm

unseal Rat.add Rat.mul Rat.inv Rat.sub in
/-- Witness for the amended C3: construction of `cfgZero` yields exact unit
prior and posterior mass, and a mass-nonzero update on the binary scenario
renormalizes the posterior to exact unit mass. -/
theorem sums_to_one_witness :
    mkQuestPlus cfgZero = .ok qpZero ∧
      priorNormalizer (cfgZero.paramDomain.map ensureNdarray) cfgZero.priorSpec ≠ 0 ∧
      (priorSum qpZero = 1 ∧ postSum qpZero = 1) ∧
      update sampleQP [0] 0 = .ok sampleQPUpdated ∧
      massOf sampleQP [0] 0 ≠ 0 ∧ postSum sampleQPUpdated = 1 :=
  ⟨rfl, by decide, sums_to_one.1 cfgZero qpZero rfl (by decide),
    rfl, by decide, sums_to_one.2 sampleQP [0] 0 sampleQPUpdated rfl (by decide)⟩

unseal Rat.add Rat.mul Rat.inv Rat.sub in
/-- C3 counterexample: on `cfgZero` the update with stimulus `[0]` and
outcome `0` is lookup-valid and succeeds, yet the posterior afterwards sums
to `0`, not `1` — the renormalization divided by a zero mass. -/
theorem sums_to_one_counterexample :
    ((mkQuestPlus cfgZero).bind fun qp => (update qp [0] 0).map postSum) =
      .ok 0 ∧ (0 : ℚ) ≠ 1 :=
  ⟨by decide, by norm_num⟩

unseal Rat.add Rat.mul Rat.inv Rat.sub in
/-- C10: a lookup-valid `(stimulus, outcome)` input whose likelihood slice
is zero wherever the posterior is nonzero is accepted by `update` without
any error: the recorded run below shows the zero renormalization mass, the
posterior summing to `0` afterwards (each entry `0`, the exact-arithmetic
shadow of the float `NaN` produced by `0/0`), the history still growing by
one entry, and a subsequent update likewise succeeding with the
sums-to-one invariant still destroyed. -/
theorem update_zero_mass_accepted :
    ((mkQuestPlus cfgZero).bind fun qp =>
      (update qp [0] 0).map fun qp' =>
        (massOf qp [0] 0, postSum qp', qp'.respHistory.length)) =
      .ok (0, 0, 1) ∧
    ((mkQuestPlus cfgZero).bind fun qp =>
      (update qp [0] 0).map fun qp' =>
        (qp'.posterior [0], qp'.posterior [1])) = .ok (0, 0) ∧
    ((mkQuestPlus cfgZero).bind fun qp =>
      (update qp [0] 0).bind fun qp' =>
        (update qp' [0] 0).map postSum) = .ok 0 :=
  ⟨by decide, by decide, by decide⟩

/-- The single-parameter-axis engine configuration with an explicit prior:
the input on which `_gen_prior` collapses. -/
def cfgSingleDimPrior : ConfigInput where
  stimDomain := [.seq [0, 1]]
  paramDomain := [.seq [0, 1]]
  outcomeDomain := .seq [0, 1]
  priorSpec := some [[1, 2]]
  func := "weibull"
  pGrid := samplePGrid
  stimSelectionMethod := "min_entropy"
  paramEstimationMethod := "mean"

unseal Rat.add Rat.mul Rat.inv Rat.sub in
/-- C6: with an explicit prior over a single parameter axis, `np.prod`
applied to the one-element sparse-meshgrid list collapses to the scalar
product of all the weights, and `xr.DataArray` then rejects the 0-d data
against the one parameter dim: construction fails instead of producing the
normalized per-dimension prior `[1/3, 2/3]` the spec describes.  The
second conjunct shows the multi-axis path of the very same `_gen_prior`
embedding does produce the normalized outer product, so the failure is
specific to the collapsed single-axis case. -/
theorem prior_single_axis_collapse :
    mkQuestPlus cfgSingleDimPrior = .error .configError ∧
      ((genPrior [[5, 6], [7]] (some [[1, 3], [2]])).map fun p =>
        [p [0, 0], p [1, 0]]) = .ok [1 / 4, 3 / 4] :=
  ⟨rfl, by decide⟩

/-- The prior generation only ever fails with a configuration error. -/
theorem genPrior_error_config {paramAxes : List (List ℚ)}
    {priorSpec : Option (List (List ℚ))} {e : QPError}
    (h : genPrior paramAxes priorSpec = .error e) : e = .configError := by
  cases priorSpec with
  | none => exact Except.noConfusion h
  | some ws =>
      simp only [genPrior] at h
      split at h
      · injection h with h'; exact h'.symm
      · split at h
        · injection h with h'; exact h'.symm
        · exact Except.noConfusion h

/-- Likelihood construction on an empty outcome axis always fails with a
configuration error (`outcome_values[0]` raises, or the function name is
already unknown). -/
theorem genLikelihoods_nil (func : String) (pGrid : List Nat → List Nat → ℚ) :
    genLikelihoods func [] pGrid = .error .configError := by
  unfold genLikelihoods
  split <;> rfl

/-- An engine with an empty stimulus axis has an empty stimulus grid. -/
theorem stimCells_of_empty_axis {qp : QuestPlus} (h : [] ∈ qp.stimAxes) :
    stimCells qp = [] := by
  unfold stimCells
  apply gridIndices_eq_nil
  have h0 := List.mem_map_of_mem List.length h
  simpa using h0

/-- C8 (amended): scalar axis values are coerced to single-element
sequences, and an empty outcome axis fails with a configuration error at
construction; an empty stimulus axis produces no configuration check but
makes the first use fail (`next_stim` raises a `ValueError`, `update` a
lookup error, since no value can be found in an empty grid).  An empty
parameter axis, however, raises no error at construction or first use —
see the counterexample. -/
theorem empty_axis_behavior :
    (∀ x, ensureNdarray (.scalar x) = [x]) ∧
    (∀ cfg, ensureNdarray cfg.outcomeDomain = [] →
      mkQuestPlus cfg = .error .configError) ∧
    (∀ lg qp, [] ∈ qp.stimAxes → nextStim lg qp = .error .valueError) ∧
    (∀ qp stim oc, [] ∈ qp.stimAxes →
      update qp stim oc = .error .lookupError) := by
  refine ⟨fun x => rfl, ?_, ?_, ?_⟩
  · intro cfg heo
    unfold mkQuestPlus
    simp only [heo, genLikelihoods_nil]
    cases hp : genPrior (cfg.paramDomain.map ensureNdarray) cfg.priorSpec with
    | error e => rw [genPrior_error_config hp]
    | ok p => rfl
  · intro lg qp h
    unfold nextStim
    by_cases hsel : qp.stimSelection = "min_entropy"
    · rw [if_pos hsel, stimCells_of_empty_axis h]
      rfl
    · rw [if_neg hsel]
  · intro qp stim oc h
    have hnone : lookupStim qp.stimAxes stim = none := by
      unfold lookupStim
      by_cases hlen : qp.stimAxes.length = stim.length
      · rw [if_pos hlen]
        obtain ⟨i, hi, hie⟩ := List.getElem_of_mem h
        have hi' : i < stim.length := hlen ▸ hi
        have hz : i < (qp.stimAxes.zip stim).length := by
          rw [List.length_zip, hlen]
          exact Nat.lt_min.mpr ⟨hi', hi'⟩
        have hmem : (qp.stimAxes[i], stim[i]) ∈ qp.stimAxes.zip stim := by
          have hgm := List.getElem_mem hz
          rwa [List.getElem_zip] at hgm
        apply seqLookups_eq_none hmem
        rw [hie]
        rfl
      · exact if_neg hlen
    unfold update
    rw [hnone]

unseal Rat.add Rat.mul Rat.inv Rat.sub in
/-- Witness for the amended C8: scalar coercion on a concrete scalar, a
concrete empty-outcome configuration rejected at construction, and a
concrete engine with an empty stimulus axis whose first `next_stim` and
`update` calls fail. -/
theorem empty_axis_behavior_witness :
    ensureNdarray (.scalar 7) = [7] ∧
      ensureNdarray cfgEmptyOutcome.outcomeDomain = [] ∧
      mkQuestPlus cfgEmptyOutcome = .error .configError ∧
      [] ∈ emptyStimQP.stimAxes ∧
      nextStim (fun _ => 0) emptyStimQP = .error .valueError ∧
      update emptyStimQP [0] 0 = .error .lookupError :=
  ⟨empty_axis_behavior.1 7, rfl,
    empty_axis_behavior.2.1 cfgEmptyOutcome rfl,
    by decide,
    empty_axis_behavior.2.2.1 (fun _ => 0) emptyStimQP (by decide),
    empty_axis_behavior.2.2.2 emptyStimQP [0] 0 (by decide)⟩

unseal Rat.add Rat.mul Rat.inv Rat.sub in
/-- C8 counterexample: `cfgEmptyParam` has an empty parameter axis, yet the
engine does not fail with a configuration error at construction or first
use — construction and all three public operations succeed. -/
theorem empty_param_axis_no_error :
    ((mkQuestPlus cfgEmptyParam).map fun _ => true) = .ok true ∧
      ((mkQuestPlus cfgEmptyParam).bind fun qp =>
        (nextStim (fun _ => 0) qp).map Prod.fst) = .ok [0] ∧
      ((mkQuestPlus cfgEmptyParam).bind fun qp =>
        (update qp [0] 0).map fun q => q.respHistory) = .ok [0] ∧
      ((mkQuestPlus cfgEmptyParam).bind fun qp => paramEstimate qp) =
        .ok [0] :=
  ⟨by decide, by decide, by decide, by decide⟩

end QuestPlusModel
